import Mathlib

/-
Verification of the continuum-golf-simulator core against its specification.

The development shallowly embeds the Rust sources:
  * src/models/hole.rs        : hole catalog, payout and breakeven functions
  * src/models/player.rs      : player skill profiles, P_max, batching, skill update
  * src/math/kalman.rs        : one-dimensional Kalman filter and batch statistics
  * src/math/integration.rs   : trapezoidal quadrature
  * src/simulators/player_session.rs : hole selection
  * src/simulators/tournament.rs     : leaderboard sorting and prize distribution
  * src/anti_cheat.rs         : sandbagging detection

Floating-point (f64) values are modelled as real numbers (exact field
arithmetic); where a claim needs evaluation on concrete inputs, rationals are
used for the same role.  A Rust panic (an expect or unwrap failure) is
modelled as the value none of an Option type.  Randomness is factored out by
passing the sampled values (rolls, indices, scores) as explicit arguments.
Definitions whose names match the Rust sources are direct translations of the
corresponding functions; definitions prefixed with spec are written from the
specification text, for comparison with the code-side translations.
-/

namespace ContinuumGolf

/-- Club category based on distance (src/models/hole.rs). -/
inductive ClubCategory
  | Wedge
  | MidIron
  | LongIron
deriving DecidableEq, Repr

/-- Hole configuration with scoring parameters (src/models/hole.rs). -/
structure Hole where
  id : ℕ
  distance_yds : ℕ
  d_max_ft : ℝ
  rtp : ℝ
  k : ℝ
  category : ClubCategory

noncomputable section

/-- Payout multiplier for a given miss distance (Hole::calculate_payout).
Rust: if miss_distance > d_max then 0 else p_max * (1 - miss/d_max).powf(k). -/
def Hole.calculate_payout (h : Hole) (miss_distance p_max : ℝ) : ℝ :=
  if h.d_max_ft < miss_distance then 0
  else p_max * (1 - miss_distance / h.d_max_ft) ^ h.k

/-- Breakeven radius for a given P_max (Hole::calculate_breakeven_radius).
Rust: if p_max <= 1 then 0 else d_max * (1 - p_max.powf (-1/k)). -/
def Hole.calculate_breakeven_radius (h : Hole) (p_max : ℝ) : ℝ :=
  if p_max ≤ 1 then 0
  else h.d_max_ft * (1 - p_max ^ (-1 / h.k))

/-- Trapezoidal rule (src/math/integration.rs, trapezoidal_rule).
Rust: if n == 0 return 0; h = (b-a)/n; sum = 0.5*(f a + f b) + sum of f(a+i*h)
for i in 1..n; return h * sum. -/
def trapezoidal_rule (f : ℝ → ℝ) (a b : ℝ) (n : ℕ) : ℝ :=
  if n = 0 then 0
  else
    (b - a) / n *
      (0.5 * (f a + f b) + ∑ i in Finset.Ico 1 n, f (a + i * ((b - a) / n)))

/-- Integrand of the P_max integral (closure inside Player::calculate_p_max).
The exponential and the real power are abstracted as function parameters so
that the structural claim about calculate_p_max is proved for any model of
the f64 primitives exp and powf. -/
def pMaxIntegrand (rexp : ℝ → ℝ) (rpowf : ℝ → ℝ → ℝ)
    (d_max k sigma : ℝ) (d : ℝ) : ℝ :=
  if d_max < d then 0
  else
    rpowf (1 - d / d_max) k *
      (d / (sigma * sigma) * rexp (-d * d / (2 * sigma * sigma)))

/-- Core of Player::calculate_p_max, as a function of the current sigma
estimate.  Rust: upper_bound = (d_max * 1.5).max(sigma * 5.0);
expected_payout = trapezoidal_rule integrand 0 upper_bound 2000;
return rtp / (expected_payout + 1e-10). -/
def calculatePMaxAt (rexp : ℝ → ℝ) (rpowf : ℝ → ℝ → ℝ)
    (hole : Hole) (sigma : ℝ) : ℝ :=
  hole.rtp /
    (trapezoidal_rule (pMaxIntegrand rexp rpowf hole.d_max_ft hole.k sigma)
        0 (max (hole.d_max_ft * 1.5) (sigma * 5)) 2000
      + 1e-10)

/-- Trapezoidal-rule approximation as described by the specification text
(claim side): width times the average of the endpoint values plus the sum of
the interior values. -/
def specTrapezoid (f : ℝ → ℝ) (a b : ℝ) (n : ℕ) : ℝ :=
  (b - a) / n *
    ((f a + f b) / 2 + ∑ i in Finset.Ico 1 n, f (a + i * ((b - a) / n)))

/-- Integrand as described by the specification text (claim side):
(1 - d/d_max)^k * (d/sigma^2) * exp(-d^2/(2 sigma^2)) for d <= d_max,
and 0 for d > d_max. -/
def specIntegrand (rexp : ℝ → ℝ) (rpowf : ℝ → ℝ → ℝ)
    (d_max k sigma : ℝ) (d : ℝ) : ℝ :=
  if d ≤ d_max then
    rpowf (1 - d / d_max) k * (d / sigma ^ 2 * rexp (-d ^ 2 / (2 * sigma ^ 2)))
  else 0

/-- Kalman filter state (src/math/kalman.rs, struct KalmanState). -/
structure KalmanState where
  estimate : ℝ
  error_covariance : ℝ
  process_noise : ℝ
  initial_estimate : ℝ

/-- Prediction step (KalmanState::predict): the estimate is unchanged and the
covariance grows by the process noise Q. -/
def KalmanState.predict (s : KalmanState) : KalmanState :=
  { s with error_covariance := s.error_covariance + s.process_noise }

/-- Update step (KalmanState::update).  Rust:
kalman_gain = P / (P + R); estimate += kalman_gain * (measurement - estimate);
error_covariance *= 1 - kalman_gain. -/
def KalmanState.update (s : KalmanState) (measurement measurement_noise : ℝ) :
    KalmanState :=
  { s with
    estimate := s.estimate +
      s.error_covariance / (s.error_covariance + measurement_noise) *
        (measurement - s.estimate)
    error_covariance := s.error_covariance *
      (1 - s.error_covariance / (s.error_covariance + measurement_noise)) }

/-- Rayleigh debiasing (kalman.rs, debias_rayleigh_measurement):
measured_miss / sqrt (pi / 2). -/
def debias_rayleigh_measurement (measured_miss : ℝ) : ℝ :=
  measured_miss / Real.sqrt (Real.pi / 2)

/-- Wager-weighted average of (miss, wager) pairs
(kalman.rs, weighted_average_measurement).  Returns 0 when the total weight
is 0, otherwise sum (miss * wager) / sum wager. -/
def weighted_average_measurement (measurements : List (ℝ × ℝ)) : ℝ :=
  if (measurements.map Prod.snd).sum = 0 then 0
  else (measurements.map fun p => p.1 * p.2).sum / (measurements.map Prod.snd).sum

/-- Sample variance of a batch (kalman.rs, measurement_variance): 100 for at
most one measurement, otherwise the Bessel-corrected sample variance. -/
def measurement_variance (measurements : List ℝ) : ℝ :=
  if measurements.length ≤ 1 then 100
  else
    (measurements.map fun x =>
        (x - measurements.sum / measurements.length) ^ 2).sum /
      ((measurements.length - 1 : ℕ) : ℝ)

/-- Record of a single shot for batch processing
(src/models/player.rs, struct ShotRecord). -/
structure ShotRecord where
  miss_distance : ℝ
  wager : ℝ

/-- Skill profile for a club category (player.rs, struct SkillProfile). -/
structure SkillProfile where
  kalman_filter : KalmanState
  p_max_history : List ℝ
  shot_batch : List ShotRecord
  batch_size : ℕ

/-- A player (player.rs, struct Player).  The Rust HashMap from club category
to skill profile, which holds exactly the three categories, is modelled as a
total function on ClubCategory. -/
structure Player where
  id : String
  handicap : ℕ
  skill_profiles : ClubCategory → SkillProfile

/-- Player::calculate_p_max reads the sigma estimate of the skill profile for
the category of the hole and applies the P_max formula. -/
def Player.calculate_p_max (rexp : ℝ → ℝ) (rpowf : ℝ → ℝ → ℝ)
    (p : Player) (hole : Hole) : ℝ :=
  calculatePMaxAt rexp rpowf hole (p.skill_profiles hole.category).kalman_filter.estimate

/-- Player::is_high_stakes_shot.  Rust: false when the batch is empty,
otherwise wager >= 10 * (sum of batch wagers / batch length). -/
def Player.is_high_stakes_shot (p : Player) (hole : Hole) (wager : ℝ) : Prop :=
  match (p.skill_profiles hole.category).shot_batch with
  | [] => False
  | _ :: _ =>
      10 * (((p.skill_profiles hole.category).shot_batch.map ShotRecord.wager).sum /
          ((p.skill_profiles hole.category).shot_batch.length : ℝ)) ≤ wager

/-- Player::update_skill.  Rust: return unchanged when the batch is empty;
otherwise reduce the batch to a debiased wager-weighted pseudo-measurement,
take the batch variance (floored at 50) as measurement noise, run a Kalman
predict followed by an update, push p_max onto the history and clear the
batch.  The profiles of the other categories are untouched. -/
def Player.update_skill (p : Player) (hole : Hole) (p_max : ℝ) : Player :=
  if ((p.skill_profiles hole.category).shot_batch).isEmpty then p
  else
    { p with
      skill_profiles := fun c =>
        if c = hole.category then
          { kalman_filter :=
              (((p.skill_profiles hole.category).kalman_filter).predict).update
                (debias_rayleigh_measurement
                  (weighted_average_measurement
                    ((p.skill_profiles hole.category).shot_batch.map
                      fun s => (s.miss_distance, s.wager))))
                (max
                  (measurement_variance
                    ((p.skill_profiles hole.category).shot_batch.map
                      ShotRecord.miss_distance))
                  50)
            p_max_history :=
              (p.skill_profiles hole.category).p_max_history ++ [p_max]
            shot_batch := []
            batch_size := (p.skill_profiles hole.category).batch_size }
        else p.skill_profiles c }

/-- Wager-weighted mean miss distance as described by the specification text
(claim side): sum (wager_i * miss_i) / sum wager_i. -/
def specWagerWeightedMean (batch : List ShotRecord) : ℝ :=
  (batch.map fun s => s.wager * s.miss_distance).sum /
    (batch.map ShotRecord.wager).sum

/-- Pseudo-measurement z as described by the specification text (claim side):
the wager-weighted mean miss divided by sqrt (pi / 2). -/
def specZ (batch : List ShotRecord) : ℝ :=
  specWagerWeightedMean batch / Real.sqrt (Real.pi / 2)

/-- Bessel-corrected sample variance as described by the specification text
(claim side). -/
def specSampleVariance (xs : List ℝ) : ℝ :=
  (xs.map fun x => (x - xs.sum / xs.length) ^ 2).sum / ((xs.length : ℝ) - 1)

/-- Measurement noise R as described by the specification text (claim side):
max of the Bessel-corrected sample variance of the miss distances and 50,
with R = 100 for a single-element batch. -/
def specR (batch : List ShotRecord) : ℝ :=
  if batch.length = 1 then 100
  else max (specSampleVariance (batch.map ShotRecord.miss_distance)) 50

/-- Mean wager of a batch as described by the specification text
(claim side). -/
def specBatchWagerMean (batch : List ShotRecord) : ℝ :=
  (batch.map ShotRecord.wager).sum / (batch.length : ℝ)

/-- Covariance after the predict step as described by the claim: P + Q. -/
def specPredictP (kf : KalmanState) : ℝ :=
  kf.error_covariance + kf.process_noise

/-- Kalman gain as described by the claim: K = P / (P + R), taken at the
predicted covariance. -/
def specGain (kf : KalmanState) (R : ℝ) : ℝ :=
  specPredictP kf / (specPredictP kf + R)

/-- The skill profile a flush is claimed to produce: the Kalman state after
predict (adding Q) followed by the update K = P/(P+R),
sigma += K (z - sigma), P becomes (1 - K) P, with z and R the claimed batch
reductions; p_max appended to the history and the batch cleared. -/
def specFlushedProfile (sp : SkillProfile) (p_max : ℝ) : SkillProfile :=
  { kalman_filter :=
      { estimate := sp.kalman_filter.estimate +
          specGain sp.kalman_filter (specR sp.shot_batch) *
            (specZ sp.shot_batch - sp.kalman_filter.estimate)
        error_covariance :=
          (1 - specGain sp.kalman_filter (specR sp.shot_batch)) *
            specPredictP sp.kalman_filter
        process_noise := sp.kalman_filter.process_noise
        initial_estimate := sp.kalman_filter.initial_estimate }
    p_max_history := sp.p_max_history ++ [p_max]
    shot_batch := []
    batch_size := sp.batch_size }

/-- One step applied to a Kalman filter state: either a predict or an update
with a given measurement and measurement noise. -/
inductive KalmanEvent
  | predict
  | update (measurement measurement_noise : ℝ)

/-- Apply one Kalman event. -/
def applyKalmanEvent (s : KalmanState) : KalmanEvent → KalmanState
  | .predict => s.predict
  | .update z r => s.update z r

/-- Apply a sequence of Kalman events in order. -/
def applyKalmanEvents (s : KalmanState) (events : List KalmanEvent) : KalmanState :=
  events.foldl applyKalmanEvent s

/-- An event is admissible when any update carries strictly positive
measurement noise R. -/
def KalmanEvent.noisePos : KalmanEvent → Prop
  | .predict => True
  | .update _ r => 0 < r

end

/-- The 8 official hole configurations (hole.rs, HOLE_CONFIGURATIONS). -/
def HOLE_CONFIGURATIONS : List Hole :=
  [ ⟨1,  75,  17.95, 0.85, 5.0, .Wedge⟩,
    ⟨2, 100,  25.69, 0.85, 5.0, .Wedge⟩,
    ⟨3, 125,  36.71, 0.85, 5.5, .Wedge⟩,
    ⟨4, 150,  47.58, 0.85, 6.0, .MidIron⟩,
    ⟨5, 175,  59.09, 0.85, 6.0, .MidIron⟩,
    ⟨6, 200,  73.58, 0.85, 6.5, .LongIron⟩,
    ⟨7, 225,  84.84, 0.85, 6.5, .LongIron⟩,
    ⟨8, 250, 101.14, 0.85, 6.5, .LongIron⟩ ]

/-- Hole lookup by id (hole.rs, get_hole_by_id): none for an id outside
1..8, otherwise the entry at index id - 1. -/
def get_hole_by_id (id : ℕ) : Option Hole :=
  if id < 1 ∨ 8 < id then none
  else HOLE_CONFIGURATIONS[id - 1]?

/-- Hole-selection strategy (player_session.rs, enum HoleSelection).  The
probabilities of Weighted entries are modelled as exact rationals so that the
selection function is executable. -/
inductive HoleSelection
  | Random
  | Weighted (weights : List (ℕ × ℚ))
  | Fixed (hole_id : ℕ)

/-- The cumulative scan of the Weighted branch of select_hole: walk the
weight list keeping a running total, returning the first hole id whose
cumulative band contains the roll, or none when the roll falls past the end. -/
def weightedRoll (roll : ℚ) : ℚ → List (ℕ × ℚ) → Option ℕ
  | _, [] => none
  | cumulative, (hole_id, prob) :: rest =>
      if roll < cumulative + prob then some hole_id
      else weightedRoll roll (cumulative + prob) rest

/-- Hole selection (player_session.rs, select_hole).  The random inputs are
explicit: randomIdx models rng.gen_range(0..8) of the Random branch and roll
models the uniform rng.gen() of the Weighted branch.  The Rust function
panics, via expect, when a selected hole id is invalid; the panic is modelled
as the result none. -/
def select_hole (selection : HoleSelection) (randomIdx : Fin 8) (roll : ℚ) :
    Option Hole :=
  match selection with
  | .Random => HOLE_CONFIGURATIONS[(randomIdx : ℕ)]?
  | .Weighted weights =>
      match weightedRoll roll 0 weights with
      | some hole_id => get_hole_by_id hole_id
      | none => get_hole_by_id ((weights.getLast?.map Prod.fst).getD 1)
  | .Fixed hole_id => get_hole_by_id hole_id

/-- Game mode (tournament.rs, enum GameMode). -/
inductive GameMode
  | LongestDrive
  | ClosestToPin (hole_id : ℕ)

/-- Prize payout structure (tournament.rs, enum PayoutStructure). -/
inductive PayoutStructure
  | WinnerTakesAll
  | Top2 (first second : ℚ)
  | Top3 (first second third : ℚ)

/-- Tournament configuration (tournament.rs, struct TournamentConfig). -/
structure TournamentConfig where
  game_mode : GameMode
  num_players : ℕ
  entry_fee : ℚ
  house_rake_percent : ℚ
  payout_structure : PayoutStructure
  attempts_per_player : ℕ

/-- Tournament result (tournament.rs, struct TournamentResult).  Scores are
modelled as exact rationals. -/
structure TournamentResult where
  leaderboard : List (String × ℚ)
  total_pool : ℚ
  house_rake : ℚ
  prize_pool : ℚ
  payouts : List (String × ℚ)

/-- Stable insertion of a scored entry, ordered by ascending key.  An element
is inserted after every existing element whose key is not larger, so equal
keys keep their original relative order, exactly as the stable sort_by of
Rust does. -/
def insertByKey (key : String × ℚ → ℚ) (x : String × ℚ) :
    List (String × ℚ) → List (String × ℚ)
  | [] => [x]
  | y :: ys => if key x < key y then x :: y :: ys else y :: insertByKey key x ys

/-- Stable sort by ascending key, processing the input left to right.  This
models the stable sort_by of Rust on the comparator induced by the key. -/
def sortByKey (key : String × ℚ → ℚ) (scores : List (String × ℚ)) :
    List (String × ℚ) :=
  scores.foldl (fun acc x => insertByKey key x acc) []

/-- Prize distribution (tournament.rs, distribute_prizes): pay the first one,
two or three leaderboard entries the corresponding share of the prize pool,
skipping ranks beyond the end of the leaderboard. -/
def distribute_prizes (leaderboard : List (String × ℚ))
    (structure_ : PayoutStructure) (prize_pool : ℚ) : List (String × ℚ) :=
  match structure_ with
  | .WinnerTakesAll =>
      match leaderboard with
      | [] => []
      | e1 :: _ => [(e1.1, prize_pool)]
  | .Top2 first second =>
      match leaderboard with
      | [] => []
      | [e1] => [(e1.1, prize_pool * first)]
      | e1 :: e2 :: _ => [(e1.1, prize_pool * first), (e2.1, prize_pool * second)]
  | .Top3 first second third =>
      match leaderboard with
      | [] => []
      | [e1] => [(e1.1, prize_pool * first)]
      | [e1, e2] => [(e1.1, prize_pool * first), (e2.1, prize_pool * second)]
      | e1 :: e2 :: e3 :: _ =>
          [(e1.1, prize_pool * first), (e2.1, prize_pool * second),
           (e3.1, prize_pool * third)]

/-- Deterministic part of run_tournament (tournament.rs).  The randomly
simulated attempts are factored out: scores is the list of
(player id, best score) pairs in the order the players were generated.
The leaderboard sort is the Rust stable sort_by: ascending by score for
ClosestToPin, descending for LongestDrive (modelled as ascending by negated
score).  The pools and the prize distribution follow the source verbatim. -/
def run_tournament_with_scores (config : TournamentConfig)
    (scores : List (String × ℚ)) : TournamentResult :=
  let leaderboard :=
    match config.game_mode with
    | .LongestDrive => sortByKey (fun p => -p.2) scores
    | .ClosestToPin _ => sortByKey (fun p => p.2) scores
  let total_pool := config.entry_fee * (config.num_players : ℚ)
  let house_rake := total_pool * config.house_rake_percent
  let prize_pool := total_pool - house_rake
  { leaderboard := leaderboard
    total_pool := total_pool
    house_rake := house_rake
    prize_pool := prize_pool
    payouts := distribute_prizes leaderboard config.payout_structure prize_pool }

/-- Number of ranks a payout structure can pay. -/
def PayoutStructure.ranks : PayoutStructure → ℕ
  | .WinnerTakesAll => 1
  | .Top2 _ _ => 2
  | .Top3 _ _ _ => 3

/-- Leaderboard order as described by the claim for ClosestToPin: ascending
by score with ties between equal scores broken lexicographically by player
id (claim side). -/
def specAscendingWithLexTies (l : List (String × ℚ)) : Prop :=
  l.Chain' fun x y => x.2 < y.2 ∨ (x.2 = y.2 ∧ x.1 ≤ y.1)

/-- Result of a single shot attempt (src/models/shot.rs, struct ShotOutcome). -/
structure ShotOutcome where
  miss_distance_ft : ℝ
  multiplier : ℝ
  payout : ℝ
  wager : ℝ
  hole_id : ℕ
  is_fat_tail : Bool

noncomputable section

/-- Pearson correlation between wager and multiplier
(anti_cheat.rs, calculate_wager_quality_correlation).  Returns 0 for fewer
than two shots and when either variance term is zero. -/
def calculate_wager_quality_correlation (shots : List ShotOutcome) : ℝ :=
  if shots.length < 2 then 0
  else
    if (shots.map fun s =>
          (s.wager - (shots.map ShotOutcome.wager).sum / (shots.length : ℝ)) ^ 2).sum = 0
      ∨ (shots.map fun s =>
          (s.multiplier - (shots.map ShotOutcome.multiplier).sum / (shots.length : ℝ)) ^ 2).sum = 0
    then 0
    else
      (shots.map fun s =>
        (s.wager - (shots.map ShotOutcome.wager).sum / (shots.length : ℝ)) *
          (s.multiplier - (shots.map ShotOutcome.multiplier).sum / (shots.length : ℝ))).sum /
      (Real.sqrt (shots.map fun s =>
          (s.wager - (shots.map ShotOutcome.wager).sum / (shots.length : ℝ)) ^ 2).sum *
        Real.sqrt (shots.map fun s =>
          (s.multiplier - (shots.map ShotOutcome.multiplier).sum / (shots.length : ℝ)) ^ 2).sum)

/-- Confidence score accumulated by detect_sandbagging (anti_cheat.rs).
Rust: 0 for fewer than 20 shots; otherwise
+0.3 when std_dev > mean_miss * 0.8 with the population standard deviation of
the miss distances,
+0.4 when the wager-multiplier correlation is < -0.5, and,
when the log holds at least 50 shots,
+0.3 when the sum of the wagers of shots[25..] divided by 25 exceeds 5 times
the mean wager of shots[..25]. -/
def detect_sandbagging_confidence (shots : List ShotOutcome) : ℝ :=
  if shots.length < 20 then 0
  else
    (if (shots.map ShotOutcome.miss_distance_ft).sum / (shots.length : ℝ) * 0.8 <
        Real.sqrt ((shots.map fun s =>
            (s.miss_distance_ft -
              (shots.map ShotOutcome.miss_distance_ft).sum / (shots.length : ℝ)) ^ 2).sum /
          (shots.length : ℝ))
      then 0.3 else 0) +
    (if calculate_wager_quality_correlation shots < -0.5 then 0.4 else 0) +
    (if 50 ≤ shots.length then
      (if ((shots.take 25).map ShotOutcome.wager).sum / 25 * 5 <
          ((shots.drop 25).map ShotOutcome.wager).sum / 25
        then 0.3 else 0)
      else 0)

/-- Suspicion flag of detect_sandbagging: set when the accumulated
confidence exceeds 0.6 (in the short-log early return it is false, which
agrees with the accumulated confidence 0). -/
def detect_sandbagging_suspicious (shots : List ShotOutcome) : Prop :=
  0.6 < detect_sandbagging_confidence shots

/-- Pearson correlation coefficient as described by the specification text
(claim side): covariance sum over the square root of the product of the
square sums, with the conventional value 0 when either square sum vanishes
or fewer than two points exist. -/
def specPearson (shots : List ShotOutcome) : ℝ :=
  if shots.length < 2 then 0
  else
    if (shots.map fun s =>
          (s.wager - (shots.map ShotOutcome.wager).sum / (shots.length : ℝ)) ^ 2).sum = 0
      ∨ (shots.map fun s =>
          (s.multiplier - (shots.map ShotOutcome.multiplier).sum / (shots.length : ℝ)) ^ 2).sum = 0
    then 0
    else
      (shots.map fun s =>
        (s.wager - (shots.map ShotOutcome.wager).sum / (shots.length : ℝ)) *
          (s.multiplier - (shots.map ShotOutcome.multiplier).sum / (shots.length : ℝ))).sum /
      Real.sqrt
        ((shots.map fun s =>
          (s.wager - (shots.map ShotOutcome.wager).sum / (shots.length : ℝ)) ^ 2).sum *
        (shots.map fun s =>
          (s.multiplier - (shots.map ShotOutcome.multiplier).sum / (shots.length : ℝ)) ^ 2).sum)

/-- Population standard deviation of the miss distances of a shot log
(claim side). -/
def specMissStd (shots : List ShotOutcome) : ℝ :=
  Real.sqrt ((shots.map fun s =>
      (s.miss_distance_ft -
        (shots.map ShotOutcome.miss_distance_ft).sum / (shots.length : ℝ)) ^ 2).sum /
    (shots.length : ℝ))

/-- Mean miss distance of a shot log (claim side). -/
def specMissMean (shots : List ShotOutcome) : ℝ :=
  (shots.map ShotOutcome.miss_distance_ft).sum / (shots.length : ℝ)

/-- Mean wager of a list of shots (claim side). -/
def specShotsWagerMean (shots : List ShotOutcome) : ℝ :=
  (shots.map ShotOutcome.wager).sum / (shots.length : ℝ)

/-- Sandbagging score exactly as the claim states it: for a log of at least
20 shots, +0.3 when the standard deviation of the miss distances exceeds 0.8
times their mean, +0.4 when the Pearson correlation between wager and
multiplier is below -0.5, and, for a log of at least 50 shots, +0.3 when the
mean wager of the second half of the log exceeds 5 times the mean wager of
the first half; 0 for fewer than 20 shots. -/
def specSandbagScoreClaim (shots : List ShotOutcome) : ℝ :=
  if shots.length < 20 then 0
  else
    (if 0.8 * specMissMean shots < specMissStd shots then 0.3 else 0) +
    (if specPearson shots < -0.5 then 0.4 else 0) +
    (if 50 ≤ shots.length then
      (if 5 * specShotsWagerMean (shots.take (shots.length / 2)) <
          specShotsWagerMean (shots.drop (shots.length / 2))
        then 0.3 else 0)
      else 0)

/-- Sandbagging score as the amended claim states it: the wager-shift term
compares the total wager of the shots after the first 25, divided by 25,
against 5 times the mean wager of the first 25 shots. -/
def specSandbagScoreAmended (shots : List ShotOutcome) : ℝ :=
  if shots.length < 20 then 0
  else
    (if 0.8 * specMissMean shots < specMissStd shots then 0.3 else 0) +
    (if specPearson shots < -0.5 then 0.4 else 0) +
    (if 50 ≤ shots.length then
      (if 5 * specShotsWagerMean (shots.take 25) <
          ((shots.drop 25).map ShotOutcome.wager).sum / 25
        then 0.3 else 0)
      else 0)

/-- Concrete hole used to instantiate hypotheses of the universally
quantified theorems on concrete inputs. -/
def demoHole : Hole :=
  { id := 4, distance_yds := 150, d_max_ft := 1, rtp := 0.85, k := 2
    category := .MidIron }

/-- Concrete skill profile holding one pending shot (miss 10 ft, wager 5). -/
def demoProfile : SkillProfile :=
  { kalman_filter :=
      { estimate := 30, error_covariance := 1000, process_noise := 1
        initial_estimate := 30 }
    p_max_history := []
    shot_batch := [{ miss_distance := 10, wager := 5 }]
    batch_size := 5 }

/-- Concrete player whose every category holds the one-shot batch above. -/
def demoPlayer : Player :=
  { id := "p1", handicap := 15, skill_profiles := fun _ => demoProfile }

/-- Concrete skill profile with an empty shot batch. -/
def emptyProfile : SkillProfile :=
  { kalman_filter :=
      { estimate := 30, error_covariance := 1000, process_noise := 1
        initial_estimate := 30 }
    p_max_history := []
    shot_batch := []
    batch_size := 5 }

/-- Concrete player whose every category holds an empty batch. -/
def emptyPlayer : Player :=
  { id := "p0", handicap := 15, skill_profiles := fun _ => emptyProfile }

/-- Concrete Kalman state with zero process noise, used for the covariance
monotonicity claim. -/
def demoKalman : KalmanState :=
  { estimate := 30, error_covariance := 1000, process_noise := 0
    initial_estimate := 30 }

/-- Shot of the sandbagging counterexample log with wager 1. -/
def sandbagShotA : ShotOutcome :=
  { miss_distance_ft := 10, multiplier := 1, payout := 1, wager := 1
    hole_id := 4, is_fat_tail := false }

/-- Shot of the sandbagging counterexample log with wager 5. -/
def sandbagShotB : ShotOutcome :=
  { miss_distance_ft := 10, multiplier := 1, payout := 5, wager := 5
    hole_id := 4, is_fat_tail := false }

/-- Sandbagging counterexample log: 25 wager-1 shots followed by 27 wager-5
shots, all with identical miss distance and multiplier. -/
def sandbagLog : List ShotOutcome :=
  List.replicate 25 sandbagShotA ++ List.replicate 27 sandbagShotB

/-- Concrete tournament configuration for the tie-breaking counterexample:
closest to pin, two players, no rake. -/
def tieConfig : TournamentConfig :=
  { game_mode := .ClosestToPin 4, num_players := 2, entry_fee := 10
    house_rake_percent := 0, payout_structure := .WinnerTakesAll
    attempts_per_player := 1 }

/-- Concrete score list with a tie, in generation order b before a. -/
def tieScores : List (String × ℚ) := [("b", 5), ("a", 5)]

end

/-- Renaming the integrand does not change the quadrature value. -/
theorem trapezoidal_rule_congr (f g : ℝ → ℝ) (a b : ℝ) (n : ℕ)
    (hfg : ∀ x, f x = g x) :
    trapezoidal_rule f a b n = trapezoidal_rule g a b n := by
  have hf : f = g := funext hfg
  rw [hf]

/-- For a positive number of subdivisions the code-side trapezoid agrees with
the spec-side description. -/
theorem trapezoidal_rule_eq_spec (f : ℝ → ℝ) (a b : ℝ) (n : ℕ) (hn : n ≠ 0) :
    trapezoidal_rule f a b n = specTrapezoid f a b n := by
  simp only [trapezoidal_rule, specTrapezoid, if_neg hn]
  ring

/-- The integrand closure of calculate_p_max agrees pointwise with the
integrand described by the claim. -/
theorem pMaxIntegrand_eq_spec (rexp : ℝ → ℝ) (rpowf : ℝ → ℝ → ℝ)
    (d_max k sigma d : ℝ) :
    pMaxIntegrand rexp rpowf d_max k sigma d =
      specIntegrand rexp rpowf d_max k sigma d := by
  simp only [pMaxIntegrand, specIntegrand]
  rcases le_or_lt d d_max with hle | hlt
  · rw [if_neg (not_lt.mpr hle), if_pos hle]
    have h1 : d / (sigma * sigma) = d / sigma ^ 2 := by ring
    have h2 : -d * d / (2 * sigma * sigma) = -d ^ 2 / (2 * sigma ^ 2) := by
      ring
    rw [h1, h2]
  · rw [if_pos hlt, if_neg (not_le.mpr hlt)]

/-- C1: for every hole with d_max > 0 and every current skill estimate,
calculate_p_max returns rtp / (T + 1e-10) where T is the n = 2000
trapezoidal-rule approximation over [0, max (1.5 d_max) (5 sigma)] of the
integrand that is (1 - d/d_max)^k * (d/sigma^2) * exp(-d^2/(2 sigma^2)) for
d <= d_max and 0 beyond, for any model rexp, rpowf of the f64 primitives. -/
theorem calculate_p_max_matches_spec (rexp : ℝ → ℝ) (rpowf : ℝ → ℝ → ℝ)
    (p : Player) (hole : Hole) (hd : 0 < hole.d_max_ft) :
    Player.calculate_p_max rexp rpowf p hole =
      hole.rtp /
        (specTrapezoid
            (specIntegrand rexp rpowf hole.d_max_ft hole.k
              (p.skill_profiles hole.category).kalman_filter.estimate)
            0
            (max (1.5 * hole.d_max_ft)
              (5 * (p.skill_profiles hole.category).kalman_filter.estimate))
            2000
          + 1e-10) := by
  unfold Player.calculate_p_max calculatePMaxAt
  rw [trapezoidal_rule_congr _ _ _ _ _
    (pMaxIntegrand_eq_spec rexp rpowf hole.d_max_ft hole.k
      (p.skill_profiles hole.category).kalman_filter.estimate)]
  rw [trapezoidal_rule_eq_spec _ _ _ _ (by norm_num)]
  rw [mul_comm hole.d_max_ft 1.5, mul_comm _ (5:ℝ)]

/-- Witness for C1 at a concrete hole, player and primitive model. -/
theorem calculate_p_max_matches_spec_witness :
    (0:ℝ) < demoHole.d_max_ft ∧
      Player.calculate_p_max (fun x => x) (fun x _ => x) demoPlayer demoHole =
        demoHole.rtp /
          (specTrapezoid
              (specIntegrand (fun x => x) (fun x _ => x) demoHole.d_max_ft
                demoHole.k
                (demoPlayer.skill_profiles demoHole.category).kalman_filter.estimate)
              0
              (max (1.5 * demoHole.d_max_ft)
                (5 * (demoPlayer.skill_profiles demoHole.category).kalman_filter.estimate))
              2000
            + 1e-10) :=
  ⟨by norm_num [demoHole],
    calculate_p_max_matches_spec (fun x => x) (fun x _ => x) demoPlayer
      demoHole (by norm_num [demoHole])⟩

/-- C2: for every hole with d_max > 0 and k > 1 and every P_max > 0, the
payout is P_max * (1 - d/d_max)^k on [0, d_max] and 0 beyond d_max, equals
P_max at 0 and 0 at d_max, is strictly decreasing on [0, d_max], and is
monotone non-increasing over all d >= 0. -/
theorem calculate_payout_properties (h : Hole) (p_max : ℝ)
    (hd : 0 < h.d_max_ft) (hk : 1 < h.k) (hp : 0 < p_max) :
    (∀ d, d ≤ h.d_max_ft →
        h.calculate_payout d p_max = p_max * (1 - d / h.d_max_ft) ^ h.k)
    ∧ (∀ d, h.d_max_ft < d → h.calculate_payout d p_max = 0)
    ∧ h.calculate_payout 0 p_max = p_max
    ∧ h.calculate_payout h.d_max_ft p_max = 0
    ∧ (∀ d₁ d₂, 0 ≤ d₁ → d₁ < d₂ → d₂ ≤ h.d_max_ft →
        h.calculate_payout d₂ p_max < h.calculate_payout d₁ p_max)
    ∧ (∀ d₁ d₂, 0 ≤ d₁ → d₁ ≤ d₂ →
        h.calculate_payout d₂ p_max ≤ h.calculate_payout d₁ p_max) := by
  have hk0 : (0:ℝ) < h.k := lt_trans one_pos hk
  have hkne : h.k ≠ 0 := ne_of_gt hk0
  have hdne : h.d_max_ft ≠ 0 := ne_of_gt hd
  refine ⟨?_, ?_, ?_, ?_, ?_, ?_⟩
  · intro d hdle
    simp only [Hole.calculate_payout, if_neg (not_lt.mpr hdle)]
  · intro d hlt
    simp only [Hole.calculate_payout, if_pos hlt]
  · simp only [Hole.calculate_payout]
    rw [if_neg (not_lt.mpr hd.le), zero_div, sub_zero, Real.one_rpow, mul_one]
  · simp only [Hole.calculate_payout]
    rw [if_neg (lt_irrefl _), div_self hdne, sub_self, Real.zero_rpow hkne,
      mul_zero]
  · intro d₁ d₂ h0 h12 h2le
    have h1le : d₁ ≤ h.d_max_ft := le_trans h12.le h2le
    simp only [Hole.calculate_payout, if_neg (not_lt.mpr h1le),
      if_neg (not_lt.mpr h2le)]
    refine mul_lt_mul_of_pos_left ?_ hp
    refine Real.rpow_lt_rpow ?_ ?_ hk0
    · have hle1 : d₂ / h.d_max_ft ≤ 1 := (div_le_one hd).mpr h2le
      linarith
    · have hltd : d₁ / h.d_max_ft < d₂ / h.d_max_ft :=
        (div_lt_div_iff_of_pos_right hd).mpr h12
      linarith
  · intro d₁ d₂ h0 h12
    by_cases h2 : h.d_max_ft < d₂
    · simp only [Hole.calculate_payout, if_pos h2]
      by_cases h1 : h.d_max_ft < d₁
      · rw [if_pos h1]
      · rw [if_neg h1]
        refine mul_nonneg hp.le (Real.rpow_nonneg ?_ _)
        have hle1 : d₁ / h.d_max_ft ≤ 1 := (div_le_one hd).mpr (not_lt.mp h1)
        linarith
    · have h2le := not_lt.mp h2
      have h1le : d₁ ≤ h.d_max_ft := le_trans h12 h2le
      simp only [Hole.calculate_payout, if_neg (not_lt.mpr h1le), if_neg h2]
      refine mul_le_mul_of_nonneg_left ?_ hp.le
      refine Real.rpow_le_rpow ?_ ?_ hk0.le
      · have hle1 : d₂ / h.d_max_ft ≤ 1 := (div_le_one hd).mpr h2le
        linarith
      · have hled : d₁ / h.d_max_ft ≤ d₂ / h.d_max_ft :=
          (div_le_div_iff_of_pos_right hd).mpr h12
        linarith

/-- Witness for C2 at the concrete hole with d_max = 1, k = 2 and
P_max = 2. -/
theorem calculate_payout_properties_witness :
    (0:ℝ) < demoHole.d_max_ft ∧ (1:ℝ) < demoHole.k ∧ (0:ℝ) < 2 ∧
      demoHole.calculate_payout 0 2 = 2 :=
  ⟨by norm_num [demoHole], by norm_num [demoHole], by norm_num,
    (calculate_payout_properties demoHole 2 (by norm_num [demoHole])
      (by norm_num [demoHole]) (by norm_num)).2.2.1⟩

/-- C3: for every hole with d_max > 0 and k > 1, the breakeven radius is
d_max * (1 - P_max^(-1/k)) for P_max > 1 and 0 otherwise, and for P_max > 1
the payout at the breakeven radius is 1 within 10^-4. -/
theorem breakeven_radius_round_trip (h : Hole) (p_max : ℝ)
    (hd : 0 < h.d_max_ft) (hk : 1 < h.k) :
    (1 < p_max →
      h.calculate_breakeven_radius p_max =
        h.d_max_ft * (1 - p_max ^ (-1 / h.k)))
    ∧ (p_max ≤ 1 → h.calculate_breakeven_radius p_max = 0)
    ∧ (1 < p_max →
      |h.calculate_payout (h.calculate_breakeven_radius p_max) p_max - 1| ≤
        1e-4) := by
  have hk0 : (0:ℝ) < h.k := lt_trans one_pos hk
  have hdne : h.d_max_ft ≠ 0 := ne_of_gt hd
  refine ⟨?_, ?_, ?_⟩
  · intro hp
    simp only [Hole.calculate_breakeven_radius, if_neg (not_le.mpr hp)]
  · intro hp
    simp only [Hole.calculate_breakeven_radius, if_pos hp]
  · intro hp
    have hp0 : (0:ℝ) < p_max := lt_trans one_pos hp
    have ht0 : 0 < p_max ^ (-1 / h.k) := Real.rpow_pos_of_pos hp0 _
    have ht1 : p_max ^ (-1 / h.k) < 1 := by
      refine Real.rpow_lt_one_of_one_lt_of_neg hp ?_
      rw [neg_div]
      have hpos : (0:ℝ) < 1 / h.k := by positivity
      linarith
    have hbr : h.calculate_breakeven_radius p_max =
        h.d_max_ft * (1 - p_max ^ (-1 / h.k)) := by
      simp only [Hole.calculate_breakeven_radius, if_neg (not_le.mpr hp)]
    have hble : h.d_max_ft * (1 - p_max ^ (-1 / h.k)) ≤ h.d_max_ft := by
      nlinarith
    rw [hbr]
    simp only [Hole.calculate_payout, if_neg (not_lt.mpr hble)]
    have harg : 1 - h.d_max_ft * (1 - p_max ^ (-1 / h.k)) / h.d_max_ft =
        p_max ^ (-1 / h.k) := by
      rw [mul_div_cancel_left₀ _ hdne]
      ring
    rw [harg]
    have hpow : (p_max ^ (-1 / h.k)) ^ h.k = p_max⁻¹ := by
      rw [← Real.rpow_mul hp0.le, div_mul_cancel₀ _ (ne_of_gt hk0),
        Real.rpow_neg_one]
    rw [hpow, mul_inv_cancel₀ (ne_of_gt hp0)]
    norm_num

/-- Witness for C3 at the concrete hole with d_max = 1, k = 2 and
P_max = 4. -/
theorem breakeven_radius_round_trip_witness :
    (0:ℝ) < demoHole.d_max_ft ∧ (1:ℝ) < demoHole.k ∧ (1:ℝ) < 4 ∧
      |demoHole.calculate_payout (demoHole.calculate_breakeven_radius 4) 4
          - 1| ≤ 1e-4 :=
  ⟨by norm_num [demoHole], by norm_num [demoHole], by norm_num,
    (breakeven_radius_round_trip demoHole 4 (by norm_num [demoHole])
      (by norm_num [demoHole])).2.2 (by norm_num)⟩

/-- The code-side batch variance agrees with the Bessel-corrected sample
variance of the claim for at least two measurements. -/
theorem measurement_variance_eq_spec (xs : List ℝ) (h2 : 2 ≤ xs.length) :
    measurement_variance xs = specSampleVariance xs := by
  have hn : ¬ xs.length ≤ 1 := by omega
  simp only [measurement_variance, specSampleVariance, if_neg hn]
  congr 1
  rw [Nat.cast_sub (by omega), Nat.cast_one]

/-- The debiased wager-weighted measurement computed by update_skill agrees
with the pseudo-measurement z of the claim whenever the total wager of the
batch is nonzero. -/
theorem update_measurement_eq_specZ (batch : List ShotRecord)
    (hw : (batch.map ShotRecord.wager).sum ≠ 0) :
    debias_rayleigh_measurement
        (weighted_average_measurement
          (batch.map fun s => (s.miss_distance, s.wager))) =
      specZ batch := by
  unfold debias_rayleigh_measurement weighted_average_measurement specZ
    specWagerWeightedMean
  simp only [List.map_map]
  have hden :
      batch.map (Prod.snd ∘ fun s : ShotRecord => (s.miss_distance, s.wager)) =
        batch.map ShotRecord.wager := rfl
  rw [hden, if_neg hw]
  have hnum :
      (batch.map ((fun p : ℝ × ℝ => p.1 * p.2) ∘
        fun s => (s.miss_distance, s.wager))).sum =
      (batch.map fun s => s.wager * s.miss_distance).sum := by
    congr 1
    exact List.map_congr_left fun s _ => mul_comm _ _
  rw [hnum]

/-- The measurement noise computed by update_skill agrees with the claimed
R for every non-empty batch. -/
theorem update_noise_eq_specR (batch : List ShotRecord) (hb : batch ≠ []) :
    max (measurement_variance (batch.map ShotRecord.miss_distance)) 50 =
      specR batch := by
  have hpos : 0 < batch.length := List.length_pos.mpr hb
  rcases Nat.lt_or_ge batch.length 2 with hlt | hge
  · have h1 : batch.length = 1 := by omega
    simp only [specR, if_pos h1, measurement_variance]
    rw [if_pos (by simp [h1])]
    norm_num
  · have h1 : batch.length ≠ 1 := by omega
    simp only [specR, if_neg h1]
    rw [measurement_variance_eq_spec _ (by simpa using hge)]

/-- C4: for every non-empty batch with positive total wager, a skill flush
replaces the profile of the category of the hole by the claimed profile
(the Kalman predict and update at the claimed z and R, p_max appended to the
history and the batch cleared) and leaves every other category unchanged. -/
theorem update_skill_flush_matches_spec (p : Player) (hole : Hole)
    (p_max : ℝ)
    (hb : (p.skill_profiles hole.category).shot_batch ≠ [])
    (hw : 0 <
      ((p.skill_profiles hole.category).shot_batch.map ShotRecord.wager).sum) :
    (p.update_skill hole p_max).skill_profiles hole.category =
      specFlushedProfile (p.skill_profiles hole.category) p_max
    ∧ ∀ c, c ≠ hole.category →
        (p.update_skill hole p_max).skill_profiles c = p.skill_profiles c := by
  have hne : (p.skill_profiles hole.category).shot_batch.isEmpty = false := by
    cases h : (p.skill_profiles hole.category).shot_batch with
    | nil => exact absurd h hb
    | cons a t => rfl
  have hcond : ¬ ((p.skill_profiles hole.category).shot_batch.isEmpty = true) := by
    rw [hne]; exact Bool.false_ne_true
  constructor
  · simp only [Player.update_skill, if_neg hcond]
    rw [if_pos trivial]
    rw [update_measurement_eq_specZ _ (ne_of_gt hw), update_noise_eq_specR _ hb]
    simp only [specFlushedProfile, KalmanState.predict, KalmanState.update,
      specGain, specPredictP, SkillProfile.mk.injEq, KalmanState.mk.injEq,
      and_true, true_and]
    ring
  · intro c hc
    simp only [Player.update_skill, if_neg hcond, if_neg hc]

/-- Witness for C4 at a concrete player holding a one-shot batch. -/
theorem update_skill_flush_matches_spec_witness :
    (demoPlayer.skill_profiles demoHole.category).shot_batch ≠ [] ∧
      0 < ((demoPlayer.skill_profiles demoHole.category).shot_batch.map
        ShotRecord.wager).sum ∧
      (demoPlayer.update_skill demoHole 2).skill_profiles demoHole.category =
        specFlushedProfile (demoPlayer.skill_profiles demoHole.category) 2 :=
  ⟨by simp [demoPlayer, demoProfile],
    by norm_num [demoPlayer, demoProfile],
    (update_skill_flush_matches_spec demoPlayer demoHole 2
      (by simp [demoPlayer, demoProfile])
      (by norm_num [demoPlayer, demoProfile])).1⟩

/-- C10: calling update_skill when the batch of the category of the hole is
empty is a complete no-op: the player, hence every field of every skill
profile, is returned unchanged. -/
theorem update_skill_empty_noop (p : Player) (hole : Hole) (p_max : ℝ)
    (hb : (p.skill_profiles hole.category).shot_batch = []) :
    p.update_skill hole p_max = p := by
  simp [Player.update_skill, hb]

/-- Witness for C10 at a concrete player with empty batches. -/
theorem update_skill_empty_noop_witness :
    (emptyPlayer.skill_profiles demoHole.category).shot_batch = [] ∧
      emptyPlayer.update_skill demoHole 2 = emptyPlayer :=
  ⟨rfl, update_skill_empty_noop emptyPlayer demoHole 2 rfl⟩

/-- One admissible Kalman event with zero process noise keeps the process
noise zero, keeps the covariance positive and does not increase it. -/
theorem kalman_step_invariant (s : KalmanState) (ev : KalmanEvent)
    (hQ : s.process_noise = 0) (hP : 0 < s.error_covariance)
    (hev : ev.noisePos) :
    (applyKalmanEvent s ev).process_noise = 0 ∧
      0 < (applyKalmanEvent s ev).error_covariance ∧
      (applyKalmanEvent s ev).error_covariance ≤ s.error_covariance := by
  cases ev with
  | predict =>
    refine ⟨hQ, ?_, ?_⟩
    · simpa [applyKalmanEvent, KalmanState.predict, hQ] using hP
    · simp [applyKalmanEvent, KalmanState.predict, hQ]
  | update z r =>
    simp only [KalmanEvent.noisePos] at hev
    simp only [applyKalmanEvent, KalmanState.update]
    have hpr : 0 < s.error_covariance + r := by linarith
    have hK0 : 0 ≤ s.error_covariance / (s.error_covariance + r) :=
      div_nonneg hP.le hpr.le
    refine ⟨hQ, ?_, ?_⟩
    · have h1 : 1 - s.error_covariance / (s.error_covariance + r) =
          r / (s.error_covariance + r) := by
        field_simp
      rw [h1]
      positivity
    · nlinarith [mul_nonneg hP.le hK0]

/-- A sequence of admissible Kalman events with zero process noise keeps the
process noise zero, keeps the covariance positive and never increases it. -/
theorem kalman_events_invariant (events : List KalmanEvent) :
    ∀ s : KalmanState, s.process_noise = 0 → 0 < s.error_covariance →
      (∀ ev ∈ events, ev.noisePos) →
      (applyKalmanEvents s events).process_noise = 0 ∧
        0 < (applyKalmanEvents s events).error_covariance ∧
        (applyKalmanEvents s events).error_covariance ≤
          s.error_covariance := by
  induction events with
  | nil =>
    intro s hQ hP _
    exact ⟨hQ, hP, le_refl _⟩
  | cons ev evs ih =>
    intro s hQ hP hall
    have h1 := kalman_step_invariant s ev hQ hP (hall ev (List.mem_cons_self _ _))
    have h2 := ih (applyKalmanEvent s ev) h1.1 h1.2.1
      (fun e he => hall e (List.mem_cons_of_mem _ he))
    simp only [applyKalmanEvents, List.foldl_cons] at h2 ⊢
    exact ⟨h2.1, h2.2.1, le_trans h2.2.2 h1.2.2⟩

/-- C5: with process noise Q = 0, covariance P > 0 and positive measurement
noises, the covariance stays positive and is monotone non-increasing over
any sequence of predict and update steps; and an update with a positive
measurement keeps a positive estimate positive. -/
theorem kalman_covariance_monotone (s : KalmanState)
    (events : List KalmanEvent) (z R : ℝ)
    (hQ : s.process_noise = 0) (hP : 0 < s.error_covariance)
    (hev : ∀ ev ∈ events, ev.noisePos)
    (hz : 0 < z) (hR : 0 < R) (hest : 0 < s.estimate) :
    (applyKalmanEvents s events).error_covariance ≤ s.error_covariance
    ∧ 0 < (applyKalmanEvents s events).error_covariance
    ∧ 0 < (s.update z R).estimate := by
  have h := kalman_events_invariant events s hQ hP hev
  refine ⟨h.2.2, h.2.1, ?_⟩
  simp only [KalmanState.update]
  have hpr : 0 < s.error_covariance + R := by linarith
  have heq : s.estimate +
      s.error_covariance / (s.error_covariance + R) * (z - s.estimate) =
        R / (s.error_covariance + R) * s.estimate +
          s.error_covariance / (s.error_covariance + R) * z := by
    field_simp
    ring
  rw [heq]
  have h1 : 0 < R / (s.error_covariance + R) := div_pos hR hpr
  have h2 : 0 < s.error_covariance / (s.error_covariance + R) :=
    div_pos hP hpr
  exact add_pos (mul_pos h1 hest) (mul_pos h2 hz)

/-- Witness for C5 at a concrete zero-process-noise state, a predict
followed by an update, and a positive measurement. -/
theorem kalman_covariance_monotone_witness :
    demoKalman.process_noise = 0 ∧ (0:ℝ) < demoKalman.error_covariance ∧
      (∀ ev ∈ [KalmanEvent.predict, KalmanEvent.update 25 50],
        ev.noisePos) ∧
      (0:ℝ) < 25 ∧ (0:ℝ) < 50 ∧ (0:ℝ) < demoKalman.estimate ∧
      ((applyKalmanEvents demoKalman
          [KalmanEvent.predict, KalmanEvent.update 25 50]).error_covariance ≤
            demoKalman.error_covariance
        ∧ 0 < (applyKalmanEvents demoKalman
            [KalmanEvent.predict, KalmanEvent.update 25 50]).error_covariance
        ∧ 0 < (demoKalman.update 25 50).estimate) :=
  ⟨rfl, by norm_num [demoKalman],
    by norm_num [List.forall_mem_cons, KalmanEvent.noisePos],
    by norm_num, by norm_num, by norm_num [demoKalman],
    kalman_covariance_monotone demoKalman
      [KalmanEvent.predict, KalmanEvent.update 25 50] 25 50 rfl
      (by norm_num [demoKalman])
      (by norm_num [List.forall_mem_cons, KalmanEvent.noisePos])
      (by norm_num) (by norm_num) (by norm_num [demoKalman])⟩

/-- C6: is_high_stakes_shot holds exactly when the batch of the category is
non-empty and the wager is at least 10 times the mean of the wagers in that
batch; in particular it is false for every wager when the batch is empty. -/
theorem is_high_stakes_iff (p : Player) (hole : Hole) (wager : ℝ) :
    (p.is_high_stakes_shot hole wager ↔
      (p.skill_profiles hole.category).shot_batch ≠ [] ∧
        10 * specBatchWagerMean (p.skill_profiles hole.category).shot_batch ≤
          wager)
    ∧ ((p.skill_profiles hole.category).shot_batch = [] →
        ¬ p.is_high_stakes_shot hole wager) := by
  refine ⟨?_, ?_⟩
  · rcases hbatch : (p.skill_profiles hole.category).shot_batch with _ | ⟨a, t⟩
    · simp [Player.is_high_stakes_shot, hbatch]
    · simp [Player.is_high_stakes_shot, specBatchWagerMean, hbatch]
  · intro hempty
    simp [Player.is_high_stakes_shot, hempty]

/-- Witness for C6: on an empty batch even an enormous wager is not
high-stakes. -/
theorem is_high_stakes_iff_witness :
    (emptyPlayer.skill_profiles demoHole.category).shot_batch = [] ∧
      ¬ emptyPlayer.is_high_stakes_shot demoHole 1000000 :=
  ⟨rfl, (is_high_stakes_iff emptyPlayer demoHole 1000000).2 rfl⟩

/-- get_hole_by_id succeeds on every id in 1..8. -/
theorem get_hole_by_id_isSome (id : ℕ) (h1 : 1 ≤ id) (h8 : id ≤ 8) :
    (get_hole_by_id id).isSome := by
  have hc : ¬ (id < 1 ∨ 8 < id) := by omega
  simp only [get_hole_by_id, if_neg hc]
  have hlen : HOLE_CONFIGURATIONS.length = 8 := rfl
  have hidx : id - 1 < HOLE_CONFIGURATIONS.length := by rw [hlen]; omega
  rw [List.getElem?_eq_getElem hidx]
  rfl

/-- A hole id returned by the cumulative weighted roll is one of the ids of
the weight list. -/
theorem weightedRoll_mem (roll : ℚ) :
    ∀ (ws : List (ℕ × ℚ)) (c : ℚ) (id : ℕ),
      weightedRoll roll c ws = some id → id ∈ ws.map Prod.fst := by
  intro ws
  induction ws with
  | nil =>
    intro c id h
    simp [weightedRoll] at h
  | cons p rest ih =>
    obtain ⟨pid, pprob⟩ := p
    intro c id h
    simp only [weightedRoll] at h
    by_cases hc : roll < c + pprob
    · rw [if_pos hc] at h
      cases h
      simp
    · rw [if_neg hc] at h
      simp only [List.map_cons, List.mem_cons]
      exact Or.inr (ih _ _ h)

/-- C7 counterexample: with hole_selection Weighted [(9, 1)], a hole id
outside 1..8, the hole selection of the session driver panics (modelled as
none); no ConfigError value is produced, refuting the claimed structured
error return. -/
theorem select_hole_invalid_weight_panics :
    select_hole (.Weighted [(9, 1)]) ⟨0, by norm_num⟩ (1/2) = none := by
  norm_num [select_hole, weightedRoll, get_hole_by_id]

/-- C7 amended: an out-of-range hole id in the selection strategy makes the
session driver panic, modelled as the selection returning none, instead of
failing with a structured ConfigError; selection succeeds on every strategy
whose hole ids all lie in 1..8. -/
theorem select_hole_panic_behavior :
    (∀ (id : ℕ) (idx : Fin 8) (roll : ℚ), id = 0 ∨ 8 < id →
        select_hole (.Fixed id) idx roll = none)
    ∧ (∀ (id : ℕ) (idx : Fin 8) (roll : ℚ), 1 ≤ id → id ≤ 8 →
        (select_hole (.Fixed id) idx roll).isSome)
    ∧ (∀ (weights : List (ℕ × ℚ)) (idx : Fin 8) (roll : ℚ),
        weights ≠ [] → (∀ w ∈ weights, 1 ≤ w.1 ∧ w.1 ≤ 8) →
        (select_hole (.Weighted weights) idx roll).isSome)
    ∧ (∀ (idx : Fin 8) (roll : ℚ), (select_hole .Random idx roll).isSome) := by
  refine ⟨?_, ?_, ?_, ?_⟩
  · intro id idx roll h
    simp only [select_hole, get_hole_by_id]
    rw [if_pos (by omega)]
  · intro id idx roll h1 h8
    exact get_hole_by_id_isSome id h1 h8
  · intro weights idx roll hne hvalid
    simp only [select_hole]
    cases hwr : weightedRoll roll 0 weights with
    | some id =>
      have hmem := weightedRoll_mem roll weights 0 id hwr
      obtain ⟨w, hw, rfl⟩ := List.mem_map.mp hmem
      exact get_hole_by_id_isSome _ (hvalid w hw).1 (hvalid w hw).2
    | none =>
      obtain ⟨w, hlast⟩ :=
        Option.isSome_iff_exists.mp (List.getLast?_isSome.mpr hne)
      have hwmem : w ∈ weights := List.mem_of_mem_getLast? hlast
      rw [hlast]
      exact get_hole_by_id_isSome _ (hvalid w hwmem).1 (hvalid w hwmem).2
  · intro idx roll
    simp only [select_hole]
    have hidx : (idx : ℕ) < HOLE_CONFIGURATIONS.length := idx.isLt
    rw [List.getElem?_eq_getElem hidx]
    rfl

/-- Witness for C7 amended, exercising the invalid Fixed id, a valid Fixed
id and a valid Weighted strategy. -/
theorem select_hole_panic_behavior_witness :
    select_hole (.Fixed 9) ⟨0, by norm_num⟩ 0 = none
    ∧ (select_hole (.Fixed 4) ⟨0, by norm_num⟩ 0).isSome
    ∧ (select_hole (.Weighted [(4, 1)]) ⟨0, by norm_num⟩ (1/2)).isSome :=
  ⟨select_hole_panic_behavior.1 9 ⟨0, by norm_num⟩ 0 (Or.inr (by norm_num)),
    select_hole_panic_behavior.2.1 4 ⟨0, by norm_num⟩ 0 (by norm_num)
      (by norm_num),
    select_hole_panic_behavior.2.2.1 [(4, 1)] ⟨0, by norm_num⟩ (1/2)
      (by simp) (by norm_num [List.forall_mem_cons])⟩

/-- Stable insertion permutes: the result holds the new element and the old
ones. -/
theorem insertByKey_perm (key : String × ℚ → ℚ) (x : String × ℚ)
    (l : List (String × ℚ)) : (insertByKey key x l).Perm (x :: l) := by
  induction l with
  | nil => exact List.Perm.refl _
  | cons y ys ih =>
    simp only [insertByKey]
    by_cases h : key x < key y
    · rw [if_pos h]
    · rw [if_neg h]
      exact (List.Perm.cons y ih).trans (List.Perm.swap x y ys)

/-- The insertion-sort fold permutes the accumulated and remaining
elements. -/
theorem foldl_insertByKey_perm (key : String × ℚ → ℚ) :
    ∀ (l acc : List (String × ℚ)),
      (l.foldl (fun acc x => insertByKey key x acc) acc).Perm (acc ++ l) := by
  intro l
  induction l with
  | nil =>
    intro acc
    simp
  | cons x xs ih =>
    intro acc
    simp only [List.foldl_cons]
    exact (ih _).trans
      (((insertByKey_perm key x acc).append_right xs).trans
        List.perm_middle.symm)

/-- sortByKey permutes its input. -/
theorem sortByKey_perm (key : String × ℚ → ℚ) (l : List (String × ℚ)) :
    (sortByKey key l).Perm l := by
  simpa using foldl_insertByKey_perm key l []

/-- Stable insertion preserves sortedness by the key. -/
theorem insertByKey_sorted (key : String × ℚ → ℚ) (x : String × ℚ)
    (l : List (String × ℚ)) (hl : l.Sorted fun a b => key a ≤ key b) :
    (insertByKey key x l).Sorted fun a b => key a ≤ key b := by
  induction l with
  | nil => simp [insertByKey]
  | cons y ys ih =>
    rw [List.sorted_cons] at hl
    obtain ⟨hy, hys⟩ := hl
    simp only [insertByKey]
    by_cases h : key x < key y
    · rw [if_pos h, List.sorted_cons]
      refine ⟨?_, List.sorted_cons.mpr ⟨hy, hys⟩⟩
      intro b hb
      rcases List.mem_cons.mp hb with rfl | hb2
      · exact h.le
      · exact h.le.trans (hy b hb2)
    · rw [if_neg h, List.sorted_cons]
      refine ⟨?_, ih hys⟩
      intro b hb
      rcases List.mem_cons.mp ((insertByKey_perm key x ys).mem_iff.mp hb) with
        rfl | hb2
      · exact not_lt.mp h
      · exact hy b hb2

/-- sortByKey sorts by the key. -/
theorem sortByKey_sorted (key : String × ℚ → ℚ) (l : List (String × ℚ)) :
    (sortByKey key l).Sorted fun a b => key a ≤ key b := by
  suffices h : ∀ (l acc : List (String × ℚ)),
      acc.Sorted (fun a b => key a ≤ key b) →
      (l.foldl (fun acc x => insertByKey key x acc) acc).Sorted
        fun a b => key a ≤ key b by
    exact h l [] (by simp)
  intro l
  induction l with
  | nil =>
    intro acc hacc
    simpa using hacc
  | cons x xs ih =>
    intro acc hacc
    exact ih _ (insertByKey_sorted key x acc hacc)

/-- Inserting among elements of equal key appends at the end: ties are never
moved ahead of existing elements. -/
theorem insertByKey_allEq (key : String × ℚ → ℚ) (x : String × ℚ)
    (l : List (String × ℚ)) (h : ∀ p ∈ l, key p = key x) :
    insertByKey key x l = l ++ [x] := by
  induction l with
  | nil => rfl
  | cons y ys ih =>
    simp only [insertByKey]
    have hy : key y = key x := h y (List.mem_cons_self _ _)
    rw [if_neg (by rw [hy]; exact lt_irrefl _),
      ih fun p hp => h p (List.mem_cons_of_mem _ hp)]
    rfl

/-- Sorting a list whose keys are all equal returns it unchanged: the stable
sort keeps the original (generation) order of tied entries. -/
theorem sortByKey_allEq (key : String × ℚ → ℚ) (l : List (String × ℚ))
    (v : ℚ) (h : ∀ p ∈ l, key p = v) : sortByKey key l = l := by
  suffices h2 : ∀ (l acc : List (String × ℚ)), (∀ p ∈ l, key p = v) →
      (∀ p ∈ acc, key p = v) →
      l.foldl (fun acc x => insertByKey key x acc) acc = acc ++ l by
    simpa using h2 l [] h (by simp)
  intro l
  induction l with
  | nil =>
    intro acc _ _
    simp
  | cons x xs ih =>
    intro acc hl hacc
    have hx : key x = v := hl x (List.mem_cons_self _ _)
    simp only [List.foldl_cons]
    rw [insertByKey_allEq key x acc fun p hp => by rw [hacc p hp, hx]]
    rw [ih (acc ++ [x]) (fun p hp => hl p (List.mem_cons_of_mem _ hp)) ?_]
    · simp
    · intro p hp
      rcases List.mem_append.mp hp with h1 | h1
      · exact hacc p h1
      · rw [List.mem_singleton.mp h1]
        exact hx

/-- Inserting an element whose key is not k does not change the key-k
subsequence. -/
theorem insertByKey_filter_ne (key : String × ℚ → ℚ) (k : ℚ)
    (x : String × ℚ) (l : List (String × ℚ)) (hx : key x ≠ k) :
    (insertByKey key x l).filter (fun p => decide (key p = k)) =
      l.filter (fun p => decide (key p = k)) := by
  induction l with
  | nil => simp [insertByKey, hx]
  | cons y ys ih =>
    simp only [insertByKey]
    by_cases h : key x < key y
    · rw [if_pos h]
      simp [List.filter_cons, hx]
    · rw [if_neg h]
      simp only [List.filter_cons, ih]

/-- Inserting an element of key k into a list sorted by the key appends it
to the end of the key-k subsequence: stable insertion never moves an element
ahead of earlier elements with the same key. -/
theorem insertByKey_filter_eq_key (key : String × ℚ → ℚ) (k : ℚ)
    (x : String × ℚ) (l : List (String × ℚ))
    (hl : l.Sorted fun a b => key a ≤ key b) (hx : key x = k) :
    (insertByKey key x l).filter (fun p => decide (key p = k)) =
      l.filter (fun p => decide (key p = k)) ++ [x] := by
  induction l with
  | nil => simp [insertByKey, hx]
  | cons y ys ih =>
    rw [List.sorted_cons] at hl
    obtain ⟨hy, hys⟩ := hl
    simp only [insertByKey]
    by_cases h : key x < key y
    · rw [if_pos h]
      have hnil : (y :: ys).filter (fun p => decide (key p = k)) = [] := by
        rw [List.filter_eq_nil_iff]
        intro a ha
        rcases List.mem_cons.mp ha with rfl | ha2
        · have : key a ≠ k := by rw [← hx]; exact (ne_of_gt h)
          simp [this]
        · have hak : key a ≠ k := by
            rw [← hx]
            exact ne_of_gt (lt_of_lt_of_le h (hy a ha2))
          simp [hak]
      rw [List.filter_cons, if_pos (by simp [hx]), hnil]
      simp
    · rw [if_neg h]
      simp only [List.filter_cons]
      rw [ih hys]
      split_ifs <;> simp

/-- The insertion-sort fold preserves, for every key value k, the key-k
subsequence of input order: the filtered output is the filtered sorted
accumulator followed by the filtered remaining input. -/
theorem foldl_insertByKey_filter (key : String × ℚ → ℚ) (k : ℚ) :
    ∀ (l acc : List (String × ℚ)),
      acc.Sorted (fun a b => key a ≤ key b) →
      (l.foldl (fun acc x => insertByKey key x acc) acc).filter
          (fun p => decide (key p = k)) =
        acc.filter (fun p => decide (key p = k)) ++
          l.filter (fun p => decide (key p = k)) := by
  intro l
  induction l with
  | nil =>
    intro acc _
    simp
  | cons x xs ih =>
    intro acc hacc
    simp only [List.foldl_cons]
    rw [ih _ (insertByKey_sorted key x acc hacc)]
    by_cases hx : key x = k
    · rw [insertByKey_filter_eq_key key k x acc hacc hx, List.filter_cons,
        if_pos (by simp [hx])]
      simp
    · rw [insertByKey_filter_ne key k x acc hx, List.filter_cons,
        if_neg (by simp [hx])]

/-- sortByKey is stable: for every key value k, the elements of key k appear
in the output in exactly their input order. -/
theorem sortByKey_filter_stable (key : String × ℚ → ℚ) (k : ℚ)
    (l : List (String × ℚ)) :
    (sortByKey key l).filter (fun p => decide (key p = k)) =
      l.filter (fun p => decide (key p = k)) := by
  simpa [sortByKey] using foldl_insertByKey_filter key k l [] (by simp)

/-- distribute_prizes pays exactly the existing ranks, up to the rank count
of the structure. -/
theorem distribute_prizes_length (l : List (String × ℚ))
    (st : PayoutStructure) (pool : ℚ) :
    (distribute_prizes l st pool).length = min st.ranks l.length := by
  cases st <;> rcases l with _ | ⟨a, _ | ⟨b, _ | ⟨c, t⟩⟩⟩ <;>
    simp [distribute_prizes, PayoutStructure.ranks]

/-- C8 counterexample: a closest-to-pin tournament over the tied scores
[(b, 5), (a, 5)] keeps b ahead of a in the leaderboard, so ties are not
broken lexicographically by player id. -/
theorem tournament_tiebreak_counterexample :
    (run_tournament_with_scores tieConfig tieScores).leaderboard =
      [("b", 5), ("a", 5)]
    ∧ ¬ specAscendingWithLexTies
        (run_tournament_with_scores tieConfig tieScores).leaderboard := by
  constructor
  · rfl
  · intro hch
    have hr := (List.chain'_cons.mp hch).1
    rcases hr with h | ⟨-, h⟩
    · exact absurd h (lt_irrefl _)
    · rw [String.le_iff_toList_le] at h
      exact absurd h (by decide)

/-- C8 amended: the pool, rake and prize formulas hold; the leaderboard is a
permutation of the scores, sorted ascending for closest-to-pin and
descending for longest-drive; ties between equal scores keep the order in
which the players were generated instead of being re-sorted by id: for every
score value v, the subsequence of leaderboard entries with score v equals
the subsequence of input entries with score v (and an all-tied score list is
returned unchanged); payouts go exactly to the ranks that exist; a
zero-player tournament yields an empty leaderboard, zero rake and no
payouts. -/
theorem run_tournament_amended (config : TournamentConfig)
    (scores : List (String × ℚ))
    (hlen : scores.length = config.num_players) :
    (run_tournament_with_scores config scores).total_pool =
        config.entry_fee * (config.num_players : ℚ)
    ∧ (run_tournament_with_scores config scores).house_rake =
        (run_tournament_with_scores config scores).total_pool *
          config.house_rake_percent
    ∧ (run_tournament_with_scores config scores).prize_pool =
        (run_tournament_with_scores config scores).total_pool -
          (run_tournament_with_scores config scores).house_rake
    ∧ (run_tournament_with_scores config scores).leaderboard.Perm scores
    ∧ (∀ hid, config.game_mode = .ClosestToPin hid →
        (run_tournament_with_scores config scores).leaderboard.Sorted
          fun a b => a.2 ≤ b.2)
    ∧ (config.game_mode = .LongestDrive →
        (run_tournament_with_scores config scores).leaderboard.Sorted
          fun a b => b.2 ≤ a.2)
    ∧ (∀ v, (∀ p ∈ scores, p.2 = v) →
        (run_tournament_with_scores config scores).leaderboard = scores)
    ∧ (∀ v : ℚ,
        (run_tournament_with_scores config scores).leaderboard.filter
            (fun p => decide (p.2 = v)) =
          scores.filter fun p => decide (p.2 = v))
    ∧ (run_tournament_with_scores config scores).payouts.length =
        min config.payout_structure.ranks
          (run_tournament_with_scores config scores).leaderboard.length
    ∧ (config.num_players = 0 →
        (run_tournament_with_scores config scores).leaderboard = []
        ∧ (run_tournament_with_scores config scores).house_rake = 0
        ∧ (run_tournament_with_scores config scores).payouts = []) := by
  refine ⟨rfl, rfl, rfl, ?_, ?_, ?_, ?_, ?_, ?_, ?_⟩
  · cases hm : config.game_mode with
    | LongestDrive =>
      simp only [run_tournament_with_scores, hm]
      exact sortByKey_perm _ scores
    | ClosestToPin hid =>
      simp only [run_tournament_with_scores, hm]
      exact sortByKey_perm _ scores
  · intro hid hm
    simp only [run_tournament_with_scores, hm]
    exact sortByKey_sorted _ scores
  · intro hm
    simp only [run_tournament_with_scores, hm]
    refine (sortByKey_sorted (fun p => -p.2) scores).imp ?_
    intro a b hab
    exact neg_le_neg_iff.mp hab
  · intro v hv
    cases hm : config.game_mode with
    | LongestDrive =>
      simp only [run_tournament_with_scores, hm]
      exact sortByKey_allEq _ scores (-v) fun p hp => by rw [hv p hp]
    | ClosestToPin hid =>
      simp only [run_tournament_with_scores, hm]
      exact sortByKey_allEq _ scores v fun p hp => hv p hp
  · intro v
    cases hm : config.game_mode with
    | LongestDrive =>
      simp only [run_tournament_with_scores, hm]
      have hpred : ∀ m : List (String × ℚ),
          (m.filter fun p => decide (-p.2 = -v)) =
            m.filter fun p => decide (p.2 = v) := by
        intro m
        refine List.filter_congr ?_
        intro a _
        simp [neg_inj]
      have h := sortByKey_filter_stable (fun p => -p.2) (-v) scores
      rw [hpred, hpred] at h
      exact h
    | ClosestToPin hid =>
      simp only [run_tournament_with_scores, hm]
      exact sortByKey_filter_stable (fun p => p.2) v scores
  · exact distribute_prizes_length _ _ _
  · intro h0
    have hnil : scores = [] := List.length_eq_zero.mp (hlen.trans h0)
    subst hnil
    refine ⟨?_, ?_, ?_⟩
    · cases hm : config.game_mode <;>
        simp [run_tournament_with_scores, hm, sortByKey]
    · simp [run_tournament_with_scores, h0]
    · cases hm : config.game_mode <;>
        cases hst : config.payout_structure <;>
        simp [run_tournament_with_scores, hm, hst, sortByKey,
          distribute_prizes]

/-- Witness for C8 amended at the concrete two-player tied tournament. -/
theorem run_tournament_amended_witness :
    tieScores.length = tieConfig.num_players ∧
      (run_tournament_with_scores tieConfig tieScores).leaderboard.Perm
        tieScores :=
  ⟨rfl, (run_tournament_amended tieConfig tieScores rfl).2.2.2.1⟩

/-- The correlation computed by the code equals the Pearson coefficient as
the claim describes it; the only difference is the factored square root of
the product of the square sums. -/
theorem correlation_eq_specPearson (shots : List ShotOutcome) :
    calculate_wager_quality_correlation shots = specPearson shots := by
  unfold calculate_wager_quality_correlation specPearson
  by_cases h2 : shots.length < 2
  · rw [if_pos h2, if_pos h2]
  · rw [if_neg h2, if_neg h2]
    by_cases hg : (shots.map fun s =>
          (s.wager - (shots.map ShotOutcome.wager).sum /
            (shots.length : ℝ)) ^ 2).sum = 0
      ∨ (shots.map fun s =>
          (s.multiplier - (shots.map ShotOutcome.multiplier).sum /
            (shots.length : ℝ)) ^ 2).sum = 0
    · rw [if_pos hg, if_pos hg]
    · rw [if_neg hg, if_neg hg]
      have hwnn : 0 ≤ (shots.map fun s =>
          (s.wager - (shots.map ShotOutcome.wager).sum /
            (shots.length : ℝ)) ^ 2).sum := by
        refine List.sum_nonneg ?_
        intro b hb
        obtain ⟨s, _, rfl⟩ := List.mem_map.mp hb
        positivity
      rw [Real.sqrt_mul hwnn]

/-- C9 amended: the sandbagging score of the code is 0 for fewer than 20
shots and otherwise adds 0.3 when the miss standard deviation exceeds 0.8
times the mean miss, 0.4 when the wager-multiplier Pearson correlation is
below -0.5 and, for at least 50 shots, 0.3 when the wager sum of the shots
after the first 25, divided by 25, exceeds 5 times the mean wager of the
first 25 shots; the suspicious flag is set exactly when the score exceeds
0.6. -/
theorem detect_sandbagging_amended (shots : List ShotOutcome) :
    detect_sandbagging_confidence shots = specSandbagScoreAmended shots
    ∧ (detect_sandbagging_suspicious shots ↔
        0.6 < detect_sandbagging_confidence shots) := by
  constructor
  · unfold detect_sandbagging_confidence specSandbagScoreAmended specMissMean
      specMissStd specShotsWagerMean
    by_cases h20 : shots.length < 20
    · rw [if_pos h20, if_pos h20]
    · rw [if_neg h20, if_neg h20, correlation_eq_specPearson,
        mul_comm _ (0.8:ℝ)]
      by_cases h50 : 50 ≤ shots.length
      · simp only [if_pos h50]
        rw [List.length_take, min_eq_left (by omega : 25 ≤ shots.length),
          mul_comm _ (5:ℝ)]
        norm_num
      · simp only [if_neg h50]
  · exact Iff.rfl

/-- C9 counterexample: on the 52-shot log of constant miss distance whose
wagers jump from 1 to 5 after shot 25, the code accumulates confidence 0.3
(its wager-shift test divides the 27-shot tail sum by 25) while the score
described by the claim, whose halves split the log at 26, is 0. -/
theorem detect_sandbagging_score_counterexample :
    detect_sandbagging_confidence sandbagLog = 0.3
    ∧ specSandbagScoreClaim sandbagLog = 0
    ∧ detect_sandbagging_confidence sandbagLog ≠
        specSandbagScoreClaim sandbagLog := by
  have htake : sandbagLog.take 25 = List.replicate 25 sandbagShotA := by
    simp [sandbagLog, List.take_append_eq_append_take, List.take_replicate]
  have hdrop : sandbagLog.drop 25 = List.replicate 27 sandbagShotB := by
    simp [sandbagLog, List.drop_append_eq_append_drop, List.drop_replicate]
  have hlen2 : sandbagLog.length / 2 = 26 := by
    simp [sandbagLog]
  have htake26 : sandbagLog.take 26 =
      List.replicate 25 sandbagShotA ++ List.replicate 1 sandbagShotB := by
    simp [sandbagLog, List.take_append_eq_append_take, List.take_replicate]
  have hdrop26 : sandbagLog.drop 26 = List.replicate 26 sandbagShotB := by
    simp [sandbagLog, List.drop_append_eq_append_drop, List.drop_replicate]
  have hqvar : (sandbagLog.map fun s =>
      (s.multiplier - (sandbagLog.map ShotOutcome.multiplier).sum /
        (sandbagLog.length : ℝ)) ^ 2).sum = 0 := by
    norm_num [sandbagLog, sandbagShotA, sandbagShotB, List.map_append,
      List.map_replicate, List.sum_append, List.sum_replicate,
      List.length_append, List.length_replicate]
  have hcorr : calculate_wager_quality_correlation sandbagLog = 0 := by
    unfold calculate_wager_quality_correlation
    rw [if_neg (by simp [sandbagLog]), if_pos (Or.inr hqvar)]
  have hpear : specPearson sandbagLog = 0 := by
    unfold specPearson
    rw [if_neg (by simp [sandbagLog]), if_pos (Or.inr hqvar)]
  have hcode : detect_sandbagging_confidence sandbagLog = 0.3 := by
    unfold detect_sandbagging_confidence
    rw [if_neg (by simp [sandbagLog]), hcorr, htake, hdrop]
    norm_num [sandbagLog, sandbagShotA, sandbagShotB, List.map_append,
      List.map_replicate, List.sum_append, List.sum_replicate,
      List.length_append, List.length_replicate, Real.sqrt_zero]
  have hspec : specSandbagScoreClaim sandbagLog = 0 := by
    unfold specSandbagScoreClaim specMissMean specMissStd specShotsWagerMean
    rw [if_neg (by simp [sandbagLog]), hpear, hlen2, htake26, hdrop26]
    norm_num [sandbagLog, sandbagShotA, sandbagShotB, List.map_append,
      List.map_replicate, List.sum_append, List.sum_replicate,
      List.length_append, List.length_replicate, Real.sqrt_zero]
  exact ⟨hcode, hspec, by rw [hcode, hspec]; norm_num⟩

end ContinuumGolf
